import Mathlib

/-!
Verification of the frame-window sampler and temporal-difference compositor of
`Regenerate_annotations.py` (repository BehaveAI).

The embedding is shallow:

* A decoded video is `Option (List F)` for an arbitrary frame type `F`
  (`none` models a video that fails to open; the list length models the
  reported total frame count, and sequential `cap.read()` calls pop frames in
  order).
* Floating-point parameters are modelled as rationals; 8-bit pixels as natural
  numbers `≤ 255`; a grayscale image as a flat list of pixels.
* The external library collaborators `cv2.cvtColor(BGR2GRAY)` and `cv2.resize`
  are parameters (`toGray`, `resize`) of the embedded functions, since the
  specification treats them as external collaborators; the per-pixel
  arithmetic collaborators (`cv2.absdiff`, `cv2.subtract`, `cv2.addWeighted`)
  are embedded concretely (`absdiffImg`, `subtractImg`, `addWeightedImg`,
  with round-to-nearest and saturation to `[0, 255]`).
* Python functions that return `(None, None)` on failure are embedded with an
  `Option` result; exceptions for expected data conditions cannot occur, which
  the totality of the Lean functions makes explicit.
-/

namespace BehaveAI

/-- A grayscale image: a flat list of 8-bit pixel values. -/
abbrev Image := List ℕ

/-- Clamp an integer pixel value into the 8-bit range `[0, 255]`
(`cv2.saturate_cast` over `uint8`). -/
def saturate8 (z : ℤ) : ℕ := (min 255 (max 0 z)).toNat

/-- Per-pixel semantics of `cv2.addWeighted src1 alpha src2 beta gamma`:
the linear combination, rounded to the nearest integer and saturated to
8 bits. -/
def addWeightedPix (alpha beta gamma : ℚ) (a b : ℕ) : ℕ :=
  saturate8 (round ((a : ℚ) * alpha + (b : ℚ) * beta + gamma))

/-- `cv2.addWeighted` on whole images, pixel by pixel. -/
def addWeightedImg (src1 : Image) (alpha : ℚ) (src2 : Image) (beta gamma : ℚ) : Image :=
  List.zipWith (addWeightedPix alpha beta gamma) src1 src2

/-- Per-pixel absolute difference (`cv2.absdiff`). -/
def absdiffPix (a b : ℕ) : ℕ := max a b - min a b

/-- `cv2.absdiff` on whole images. -/
def absdiffImg (src1 src2 : Image) : Image := List.zipWith absdiffPix src1 src2

/-- Per-pixel saturating subtraction (`cv2.subtract` on `uint8`): a negative
difference becomes `0`.  Truncated subtraction on `ℕ` is exactly that. -/
def subtractPix (a b : ℕ) : ℕ := a - b

/-- `cv2.subtract` on whole images. -/
def subtractImg (src1 src2 : Image) : Image := List.zipWith subtractPix src1 src2

/-- `cv2.merge [blue, green, red]`: interleave three single-channel images
into one 3-channel (BGR) image. -/
def merge3 : Image → Image → Image → List (ℕ × ℕ × ℕ)
  | b :: bs, g :: gs, r :: rs => (b, g, r) :: merge3 bs gs rs
  | _, _, _ => []

/-- The `params` dictionary produced by `load_config`. -/
structure Params where
  scale_factor : ℚ
  expA : ℚ
  expB : ℚ
  strategy : String
  chromatic_tail_only : String
  lum_weight : ℚ
  rgb_multipliers : List ℚ
  frame_skip : ℕ
  motion_threshold : ℤ
  motion_blocks_static : String
  static_blocks_motion : String
  save_empty_frames : String
  base_frame_window : ℕ
  frame_window : ℕ

/-- The `DEFAULT` section of the configuration file, with values already
parsed to their numeric/string types (string-to-number parsing is the
configuration collaborator's concern; a malformed value fails fast before the
core runs).  `none` models an absent key. -/
structure ConfigFile where
  scale_factor : Option ℚ
  expA : Option ℚ
  expB : Option ℚ
  strategy : Option String
  chromatic_tail_only : Option String
  lum_weight : Option ℚ
  rgb_multipliers : Option (List ℚ)
  frame_skip : Option ℕ
  motion_threshold : Option ℤ
  motion_blocks_static : Option String
  static_blocks_motion : Option String
  save_empty_frames : Option String

/-- The cascading base-window ladder of `load_config` (lines 31-42 of
`Regenerate_annotations.py`), applied when the strategy is `exponential`. -/
def baseWindowOf (expA expB : ℚ) : ℕ :=
  let b1 := if 1/5 < expA ∨ 1/5 < expB then 5 else 4
  let b2 := if 1/2 < expA ∨ 1/2 < expB then 10 else b1
  let b3 := if 7/10 < expA ∨ 7/10 < expB then 15 else b2
  let b4 := if 4/5 < expA ∨ 4/5 < expB then 20 else b3
  if 9/10 < expA ∨ 9/10 < expB then 45 else b4

/-- `load_config`: read each key with its default, negate `motion_threshold`,
compute the base frame window from the strategy and the exponential decay
factors, and store both the base window and the total frame window.
`rgb_multipliers` has no default; a missing key raises `KeyError`, modelled
as `none`. -/
def load_config (c : ConfigFile) : Option Params :=
  match c.rgb_multipliers with
  | none => none
  | some mults =>
    let expA := c.expA.getD (1/2)
    let expB := c.expB.getD (4/5)
    let strategy := c.strategy.getD "exponential"
    let frame_skip := c.frame_skip.getD 0
    let base_window : ℕ := if strategy = "exponential" then baseWindowOf expA expB else 4
    some ⟨c.scale_factor.getD 1, expA, expB, strategy,
      (c.chromatic_tail_only.getD "false").toLower,
      c.lum_weight.getD (7/10), mults, frame_skip,
      -(c.motion_threshold.getD 0),
      (c.motion_blocks_static.getD "false").toLower,
      (c.static_blocks_motion.getD "false").toLower,
      (c.save_empty_frames.getD "false").toLower,
      base_window, base_window * (frame_skip + 1)⟩

/-- The rolling state of the temporal diff engine: the three reference
buffers, the current static (raw) frame, the diff triple of the most recent
non-initial frame, and the current luminance image. -/
structure EngineState (F : Type) where
  prev0 : Image
  prev1 : Image
  prev2 : Image
  static_img : F
  diffs : Option (Image × Image × Image)
  gray : Image

/-- One iteration of the loop at lines 121-150 of `generate_base_images`:
`none` is the state before the first frame (`static_img is None`), which the
first frame initialises; every further frame computes the three absolute
differences against the pre-update references and then updates the references
according to the decay strategy. -/
def engineStep {F : Type} (toGray : F → Image) (p : Params)
    (s : Option (EngineState F)) (f : F) : Option (EngineState F) :=
  let g := toGray f
  match s with
  | none => some ⟨g, g, g, f, none, g⟩
  | some st =>
    let d0 := absdiffImg st.prev0 g
    let d1 := absdiffImg st.prev1 g
    let d2 := absdiffImg st.prev2 g
    let next :=
      if p.strategy = "exponential" then
        (g, addWeightedImg st.prev1 p.expA g (1 - p.expA) 0,
          addWeightedImg st.prev2 p.expB g (1 - p.expB) 0)
      else if p.strategy = "sequential" then
        (g, st.prev0, st.prev1)
      else
        (st.prev0, st.prev1, st.prev2)
    some ⟨next.1, next.2.1, next.2.2, f, some (d0, d1, d2), g⟩

/-- Run the temporal diff engine over the collected frames (the whole `for`
loop of `generate_base_images`). -/
def runEngine {F : Type} (toGray : F → Image) (p : Params)
    (frames : List F) : Option (EngineState F) :=
  frames.foldl (engineStep toGray p) none

/-- The clamped window start index (lines 79-80):
`max(0, frame_num - (base_N - 1) * step)`. -/
def startFrame (p : Params) (frame_num : ℤ) : ℤ :=
  max 0 (frame_num - ((p.base_frame_window : ℤ) - 1) * ((p.frame_skip : ℤ) + 1))

/-- The frame-collection loop (lines 89-105).  `remaining` is the part of the
video not yet decoded (a `cap.read()` pops its head; an empty `remaining`
gives `ret = False`), `idx` the absolute index of the next read, `read_count`
the number of successful reads so far, `collected` the retained frames.  The
second component counts the decode attempts (`cap.read()` calls) performed. -/
def collectGo {F : Type} (resize : F → F) (p : Params) (total : ℕ) :
    List F → ℕ → ℕ → List F → List F × ℕ
  | [], idx, _, collected =>
    if collected.length < p.base_frame_window ∧ idx < total then (collected, 1)
    else (collected, 0)
  | f :: rest, idx, read_count, collected =>
    if collected.length < p.base_frame_window ∧ idx < total then
      let collected' :=
        if read_count % (p.frame_skip + 1) = 0 then
          collected ++ [if p.scale_factor ≠ 1 then resize f else f]
        else collected
      if p.frame_window + 10 < read_count + 1 then (collected', 1)
      else
        ((collectGo resize p total rest (idx + 1) (read_count + 1) collected').1,
          (collectGo resize p total rest (idx + 1) (read_count + 1) collected').2 + 1)
    else (collected, 0)

/-- Seek to the clamped start frame and run the collection loop; returns the
retained frames and the number of decode attempts. -/
def collectedFrames {F : Type} (resize : F → F) (p : Params)
    (frames : List F) (frame_num : ℤ) : List F × ℕ :=
  let start := (startFrame p frame_num).toNat
  collectGo resize p frames.length (frames.drop start) start 0 []

/-- The motion-image compositor (lines 159-173): either the chromatic-tail
blend or the direct blend, with the fixed cross-mapping
blue ← index 0 / multiplier 2, green ← index 1 / multiplier 1,
red ← index 2 / multiplier 0. -/
def motionImageOf (p : Params) (gray d0 d1 d2 : Image) : List (ℕ × ℕ × ℕ) :=
  if p.chromatic_tail_only = "true" then
    let tb := subtractImg d0 d1
    let tr := subtractImg d2 d1
    let tg := subtractImg d1 d0
    merge3 (addWeightedImg gray p.lum_weight tb (p.rgb_multipliers.getD 2 0) (p.motion_threshold : ℚ))
      (addWeightedImg gray p.lum_weight tg (p.rgb_multipliers.getD 1 0) (p.motion_threshold : ℚ))
      (addWeightedImg gray p.lum_weight tr (p.rgb_multipliers.getD 0 0) (p.motion_threshold : ℚ))
  else
    merge3 (addWeightedImg gray p.lum_weight d0 (p.rgb_multipliers.getD 2 0) (p.motion_threshold : ℚ))
      (addWeightedImg gray p.lum_weight d1 (p.rgb_multipliers.getD 1 0) (p.motion_threshold : ℚ))
      (addWeightedImg gray p.lum_weight d2 (p.rgb_multipliers.getD 0 0) (p.motion_threshold : ℚ))

/-- Lines 152-176: fail with `(None, None)` when no diff was ever computed,
otherwise build the motion image from the final diff triple and luminance and
return it with the final static frame. -/
def composeMotion {F : Type} (p : Params) (st : EngineState F) :
    Option (F × List (ℕ × ℕ × ℕ)) :=
  match st.diffs with
  | none => none
  | some (d0, d1, d2) => some (st.static_img, motionImageOf p st.gray d0 d1 d2)

/-- `generate_base_images(video_path, frame_num, params)` (lines 52-176).
`video = none` models a video that fails to open.  Every failure path of the
source returns `(None, None)`, modelled as `none`. -/
def generate_base_images {F : Type} (toGray : F → Image) (resize : F → F)
    (video : Option (List F)) (frame_num : ℤ) (p : Params) :
    Option (F × List (ℕ × ℕ × ℕ)) :=
  match video with
  | none => none
  | some frames =>
    if frames.length ≤ 0 then none
    else if ((frames.length : ℤ) - 1) < startFrame p frame_num then none
    else
      let collected := (collectedFrames resize p frames frame_num).1
      if collected.isEmpty then none
      else
        match runEngine toGray p collected with
        | none => none
        | some st => composeMotion p st

/-- Specification-side description of strided retention: keep the elements of
`l` whose offset from the read start, counted from an initial read count
`rc`, is a multiple of `step`. -/
def stridedEvery {F : Type} (step : ℕ) : ℕ → List F → List F
  | _, [] => []
  | rc, f :: rest =>
    if rc % step = 0 then f :: stridedEvery step (rc + 1) rest
    else stridedEvery step (rc + 1) rest

end BehaveAI

namespace BehaveAI

lemma saturate8_of_le {b : ℕ} (hb : b ≤ 255) : saturate8 (b : ℤ) = b := by
  unfold saturate8; omega

lemma addWeightedPix_01 (a b : ℕ) (hb : b ≤ 255) : addWeightedPix 0 1 0 a b = b := by
  have h : ((a : ℚ) * 0 + (b : ℚ) * 1 + 0) = ((b : ℕ) : ℚ) := by ring
  unfold addWeightedPix
  rw [h, round_natCast]
  exact saturate8_of_le hb

lemma addWeightedPix_10 (a b : ℕ) (ha : a ≤ 255) : addWeightedPix 1 0 0 a b = a := by
  have h : ((a : ℚ) * 1 + (b : ℚ) * 0 + 0) = ((a : ℕ) : ℚ) := by ring
  unfold addWeightedPix
  rw [h, round_natCast]
  exact saturate8_of_le ha

lemma zipWith_right_of_le : ∀ (l1 l2 : List ℕ), l1.length = l2.length →
    (∀ x ∈ l2, x ≤ 255) → List.zipWith (addWeightedPix 0 1 0) l1 l2 = l2
  | [], [], _, _ => rfl
  | a :: t1, b :: t2, h, hb => by
    simp only [List.zipWith_cons_cons]
    rw [addWeightedPix_01 a b (hb b (by simp)), zipWith_right_of_le t1 t2 (by simpa using h)
      (fun x hx => hb x (by simp [hx]))]
  | [], _ :: _, h, _ => by simp at h
  | _ :: _, [], h, _ => by simp at h

lemma zipWith_left_of_le : ∀ (l1 l2 : List ℕ), l1.length = l2.length →
    (∀ x ∈ l1, x ≤ 255) → List.zipWith (addWeightedPix 1 0 0) l1 l2 = l1
  | [], [], _, _ => rfl
  | a :: t1, b :: t2, h, ha => by
    simp only [List.zipWith_cons_cons]
    rw [addWeightedPix_10 a b (ha a (by simp)), zipWith_left_of_le t1 t2 (by simpa using h)
      (fun x hx => ha x (by simp [hx]))]
  | [], _ :: _, h, _ => by simp at h
  | _ :: _, [], h, _ => by simp at h

lemma subtractPix_eq_max (a b : ℕ) : (subtractPix a b : ℤ) = max 0 ((a : ℤ) - (b : ℤ)) := by
  unfold subtractPix; omega

lemma engineStep_none {F : Type} (toGray : F → Image) (p : Params) (f : F) :
    engineStep toGray p none f = some ⟨toGray f, toGray f, toGray f, f, none, toGray f⟩ := rfl

lemma engineStep_seq {F : Type} (toGray : F → Image) {p : Params}
    (hp : p.strategy = "sequential") (st : EngineState F) (f : F) :
    engineStep toGray p (some st) f =
      some ⟨toGray f, st.prev0, st.prev1, f,
        some (absdiffImg st.prev0 (toGray f), absdiffImg st.prev1 (toGray f),
          absdiffImg st.prev2 (toGray f)), toGray f⟩ := by
  simp [engineStep, hp]

lemma engineStep_exp {F : Type} (toGray : F → Image) {p : Params}
    (hp : p.strategy = "exponential") (st : EngineState F) (f : F) :
    engineStep toGray p (some st) f =
      some ⟨toGray f, addWeightedImg st.prev1 p.expA (toGray f) (1 - p.expA) 0,
        addWeightedImg st.prev2 p.expB (toGray f) (1 - p.expB) 0, f,
        some (absdiffImg st.prev0 (toGray f), absdiffImg st.prev1 (toGray f),
          absdiffImg st.prev2 (toGray f)), toGray f⟩ := by
  simp [engineStep, hp]

lemma runEngine_concat {F : Type} (toGray : F → Image) (p : Params) (l : List F) (a : F) :
    runEngine toGray p (l ++ [a]) = engineStep toGray p (runEngine toGray p l) a := by
  simp [runEngine, List.foldl_append]

lemma foldl_engine_some {F : Type} (toGray : F → Image) (p : Params) :
    ∀ (l : List F) (s : Option (EngineState F)), l ≠ [] →
      ∃ st, List.foldl (engineStep toGray p) s l = some st
  | [], _, h => absurd rfl h
  | [f], s, _ => by
    cases s with
    | none => exact ⟨_, rfl⟩
    | some st => exact ⟨_, rfl⟩
  | f :: g :: rest, s, _ => by
    rw [show f :: g :: rest = [f] ++ (g :: rest) from rfl, List.foldl_append]
    exact foldl_engine_some toGray p (g :: rest) _ (by simp)

lemma runEngine_isSome {F : Type} (toGray : F → Image) (p : Params) (l : List F) (h : l ≠ []) :
    ∃ st, runEngine toGray p l = some st :=
  foldl_engine_some toGray p l none h

end BehaveAI

namespace BehaveAI

lemma foldl_diffs_isSome {F : Type} (toGray : F → Image) (p : Params) :
    ∀ (l : List F) (st : EngineState F), st.diffs.isSome = true →
      ∃ st', List.foldl (engineStep toGray p) (some st) l = some st' ∧ st'.diffs.isSome = true
  | [], st, h => ⟨st, rfl, h⟩
  | f :: rest, st, _ => by
    have hstep : ∃ st2, engineStep toGray p (some st) f = some st2 ∧ st2.diffs.isSome = true :=
      ⟨_, rfl, rfl⟩
    obtain ⟨st2, h2, hd2⟩ := hstep
    obtain ⟨st', h', hd'⟩ := foldl_diffs_isSome toGray p rest st2 hd2
    exact ⟨st', by rw [List.foldl_cons, h2, h'], hd'⟩

lemma runEngine_diffs_of_two {F : Type} (toGray : F → Image) (p : Params) :
    ∀ (l : List F), 2 ≤ l.length →
      ∃ st, runEngine toGray p l = some st ∧ st.diffs.isSome = true
  | [], h => by simp at h
  | [_], h => by simp at h
  | a :: b :: rest, _ => by
    have h1 : engineStep toGray p none a = some ⟨toGray a, toGray a, toGray a, a, none, toGray a⟩ :=
      rfl
    have h2 : ∃ st2, engineStep toGray p (some ⟨toGray a, toGray a, toGray a, a, none, toGray a⟩) b
        = some st2 ∧ st2.diffs.isSome = true := ⟨_, rfl, rfl⟩
    obtain ⟨st2, hb, hd2⟩ := h2
    obtain ⟨st', h', hd'⟩ := foldl_diffs_isSome toGray p rest st2 hd2
    refine ⟨st', ?_, hd'⟩
    rw [runEngine, List.foldl_cons, h1, List.foldl_cons, hb, h']

lemma runEngine_single {F : Type} (toGray : F → Image) (p : Params) (a : F) :
    runEngine toGray p [a] = some ⟨toGray a, toGray a, toGray a, a, none, toGray a⟩ := rfl

end BehaveAI

namespace BehaveAI

lemma succ_mul_level (c s : ℕ) : (c + 1) * (s + 1) = c * (s + 1) + (s + 1) := Nat.succ_mul c (s + 1)

lemma collectGo_fst_eq {F : Type} (resize : F → F) (p : Params)
    (hfw : p.frame_window = p.base_frame_window * (p.frame_skip + 1)) (total : ℕ) :
    ∀ (remaining : List F) (idx rc : ℕ) (collected : List F),
      idx + remaining.length ≤ total →
      rc ≤ collected.length * (p.frame_skip + 1) →
      (collectGo resize p total remaining idx rc collected).1 =
        collected ++ ((stridedEvery (p.frame_skip + 1) rc remaining).take
            (p.base_frame_window - collected.length)).map
          (fun f => if p.scale_factor ≠ 1 then resize f else f)
  | [], idx, rc, collected, _, _ => by
    by_cases hc : collected.length < p.base_frame_window ∧ idx < total <;>
      simp [collectGo, stridedEvery, hc]
  | f :: rest, idx, rc, collected, h1, h2 => by
    have hidx : idx < total := by
      simp only [List.length_cons] at h1; omega
    by_cases hclt : collected.length < p.base_frame_window
    · have hble : collected.length ≤ p.base_frame_window - 1 := by omega
      have hmul : collected.length * (p.frame_skip + 1) ≤
          (p.base_frame_window - 1) * (p.frame_skip + 1) := Nat.mul_le_mul_right _ hble
      have hb1 : (p.base_frame_window - 1) * (p.frame_skip + 1) + (p.frame_skip + 1) =
          p.base_frame_window * (p.frame_skip + 1) := by
        obtain ⟨n, hn⟩ : ∃ n, p.base_frame_window = n + 1 :=
          ⟨p.base_frame_window - 1, by omega⟩
        rw [hn]; simp [Nat.succ_mul]
      have hcap : ¬ (p.frame_window + 10 < rc + 1) := by
        rw [hfw]; push_neg; linarith
      by_cases hmod : rc % (p.frame_skip + 1) = 0
      · have h1' : idx + 1 + rest.length ≤ total := by
          simp only [List.length_cons] at h1; omega
        have hlen' : (collected ++ [if p.scale_factor ≠ 1 then resize f else f]).length =
            collected.length + 1 := by simp
        have h2' : rc + 1 ≤ (collected ++ [if p.scale_factor ≠ 1 then resize f else f]).length *
            (p.frame_skip + 1) := by
          rw [hlen', succ_mul_level]; linarith
        have ih := collectGo_fst_eq resize p hfw total rest (idx + 1) (rc + 1)
          (collected ++ [if p.scale_factor ≠ 1 then resize f else f]) h1' h2'
        obtain ⟨k, hk⟩ : ∃ k, p.base_frame_window - collected.length = k + 1 :=
          ⟨p.base_frame_window - collected.length - 1, by omega⟩
        have hk' : p.base_frame_window -
            (collected ++ [if p.scale_factor ≠ 1 then resize f else f]).length = k := by
          rw [hlen']; omega
        simp only [collectGo, if_pos (And.intro hclt hidx), if_pos hmod, if_neg hcap]
        rw [ih, hk']
        simp [stridedEvery, if_pos hmod, hk, List.take_succ_cons, List.append_assoc]
      · have h1' : idx + 1 + rest.length ≤ total := by
          simp only [List.length_cons] at h1; omega
        have hne : rc ≠ collected.length * (p.frame_skip + 1) := fun he =>
          hmod (by rw [he]; exact Nat.mul_mod_left _ _)
        have h2' : rc + 1 ≤ collected.length * (p.frame_skip + 1) :=
          Nat.succ_le_of_lt (lt_of_le_of_ne h2 hne)
        have ih := collectGo_fst_eq resize p hfw total rest (idx + 1) (rc + 1) collected h1' h2'
        simp only [collectGo, if_pos (And.intro hclt hidx), if_neg hmod, if_neg hcap]
        rw [ih]
        simp only [stridedEvery, if_neg hmod]
    · have hc : ¬ (collected.length < p.base_frame_window ∧ idx < total) := fun h => hclt h.1
      simp [collectGo, hc, Nat.sub_eq_zero_of_le (not_lt.mp hclt)]

end BehaveAI

namespace BehaveAI

lemma collectGo_len_le {F : Type} (resize : F → F) (p : Params) (total : ℕ) :
    ∀ (remaining : List F) (idx rc : ℕ) (collected : List F),
      collected.length ≤ p.base_frame_window →
      (collectGo resize p total remaining idx rc collected).1.length ≤ p.base_frame_window
  | [], idx, rc, collected, h => by
    by_cases hc : collected.length < p.base_frame_window ∧ idx < total <;>
      simp [collectGo, hc, h]
  | f :: rest, idx, rc, collected, h => by
    by_cases hc : collected.length < p.base_frame_window ∧ idx < total
    · have hlen' : (if rc % (p.frame_skip + 1) = 0 then
          collected ++ [if p.scale_factor ≠ 1 then resize f else f] else collected).length ≤
          p.base_frame_window := by
        by_cases hmod : rc % (p.frame_skip + 1) = 0
        · simp only [if_pos hmod, List.length_append, List.length_cons, List.length_nil]
          omega
        · simpa [if_neg hmod] using h
      by_cases hcap : p.frame_window + 10 < rc + 1
      · simp only [collectGo, if_pos hc, if_pos hcap]
        exact hlen'
      · simp only [collectGo, if_pos hc, if_neg hcap]
        exact collectGo_len_le resize p total rest (idx + 1) (rc + 1) _ hlen'
    · simp [collectGo, hc, h]

lemma collectGo_count_le {F : Type} (resize : F → F) (p : Params) (total : ℕ) :
    ∀ (remaining : List F) (idx rc : ℕ) (collected : List F),
      rc ≤ collected.length * (p.frame_skip + 1) →
      collected.length ≤ p.base_frame_window →
      (collectGo resize p total remaining idx rc collected).2 + rc ≤
        p.base_frame_window * (p.frame_skip + 1) + 1
  | [], idx, rc, collected, h2, hb => by
    have hmul : collected.length * (p.frame_skip + 1) ≤
        p.base_frame_window * (p.frame_skip + 1) := Nat.mul_le_mul_right _ hb
    by_cases hc : collected.length < p.base_frame_window ∧ idx < total <;>
      simp [collectGo, hc] <;> linarith
  | f :: rest, idx, rc, collected, h2, hb => by
    have hmul : collected.length * (p.frame_skip + 1) ≤
        p.base_frame_window * (p.frame_skip + 1) := Nat.mul_le_mul_right _ hb
    by_cases hc : collected.length < p.base_frame_window ∧ idx < total
    · by_cases hcap : p.frame_window + 10 < rc + 1
      · simp only [collectGo, if_pos hc, if_pos hcap]
        linarith
      · simp only [collectGo, if_pos hc, if_neg hcap]
        by_cases hmod : rc % (p.frame_skip + 1) = 0
        · have hlen' : (collected ++ [if p.scale_factor ≠ 1 then resize f else f]).length =
              collected.length + 1 := by simp
          have h2' : rc + 1 ≤ (collected ++ [if p.scale_factor ≠ 1 then resize f else f]).length *
              (p.frame_skip + 1) := by
            rw [hlen', succ_mul_level]; linarith
          have hb' : (collected ++ [if p.scale_factor ≠ 1 then resize f else f]).length ≤
              p.base_frame_window := by rw [hlen']; omega
          have ih := collectGo_count_le resize p total rest (idx + 1) (rc + 1) _ h2' hb'
          simp only [if_pos hmod]
          linarith
        · have hne : rc ≠ collected.length * (p.frame_skip + 1) := fun he =>
            hmod (by rw [he]; exact Nat.mul_mod_left _ _)
          have h2' : rc + 1 ≤ collected.length * (p.frame_skip + 1) :=
            Nat.succ_le_of_lt (lt_of_le_of_ne h2 hne)
          have ih := collectGo_count_le resize p total rest (idx + 1) (rc + 1) _ h2' hb
          simp only [if_neg hmod]
          linarith
    · simp only [collectGo, if_neg hc]
      linarith

lemma stridedEvery_ne_nil {F : Type} (step : ℕ) :
    ∀ (l : List F) (rc : ℕ), 1 ≤ rc → rc ≤ step → step - rc < l.length →
      stridedEvery step rc l ≠ []
  | [], rc, _, _, hlt => by simp at hlt
  | f :: rest, rc, _, h2, hlt => by
    by_cases hmod : rc % step = 0
    · simp [stridedEvery, hmod]
    · have hne : rc ≠ step := fun he => hmod (by rw [he]; exact Nat.mod_self step)
      have hrc : rc < step := lt_of_le_of_ne h2 hne
      have := stridedEvery_ne_nil step rest (rc + 1) (by omega) (by omega)
        (by simp only [List.length_cons] at hlt; omega)
      simpa [stridedEvery, hmod] using this

lemma window_bound (bn st total fnz : ℤ) (hbn : 2 ≤ bn) (hst : 1 ≤ st)
    (h2 : fnz ≤ total - 1) (h3 : bn * st ≤ total) :
    st + 1 ≤ total - max 0 (fnz - (bn - 1) * st) := by
  have hexp : (bn - 1) * st = bn * st - st := by ring
  rcases le_or_lt (fnz - (bn - 1) * st) 0 with hneg | hpos
  · rw [max_eq_left hneg]
    have h2st : 2 * st ≤ bn * st := mul_le_mul_of_nonneg_right hbn (by linarith)
    linarith
  · rw [max_eq_right (le_of_lt hpos)]
    have hge : 1 * st ≤ (bn - 1) * st :=
      mul_le_mul_of_nonneg_right (by linarith) (by linarith)
    linarith

end BehaveAI

namespace BehaveAI

lemma generate_none_of_short {F : Type} (toGray : F → Image) (resize : F → F) (p : Params)
    (frames : List F) (fn : ℤ) (h : (collectedFrames resize p frames fn).1.length < 2) :
    generate_base_images toGray resize (some frames) fn p = none := by
  simp only [generate_base_images]
  by_cases g1 : frames.length ≤ 0
  · simp [g1]
  by_cases g2 : ((frames.length : ℤ) - 1) < startFrame p fn
  · simp [g1, g2]
  cases hlen : (collectedFrames resize p frames fn).1 with
  | nil => simp [g1, g2, hlen]
  | cons a t =>
    have ht : t = [] := by
      rw [hlen] at h
      simp only [List.length_cons] at h
      exact List.eq_nil_of_length_eq_zero (by omega)
    subst ht
    simp [g1, g2, hlen, runEngine_single, composeMotion]

lemma generate_isSome_of {F : Type} (toGray : F → Image) (resize : F → F) (p : Params)
    (frames : List F) (fn : ℤ) (g1 : ¬ frames.length ≤ 0)
    (g2 : ¬ ((frames.length : ℤ) - 1) < startFrame p fn)
    (h : 2 ≤ (collectedFrames resize p frames fn).1.length) :
    (generate_base_images toGray resize (some frames) fn p).isSome = true := by
  obtain ⟨st, hrun, hd⟩ := runEngine_diffs_of_two toGray p _ h
  obtain ⟨⟨d0, d1, d2⟩, hdeq⟩ := Option.isSome_iff_exists.mp hd
  have hne : ((collectedFrames resize p frames fn).1).isEmpty = false := by
    cases hl : (collectedFrames resize p frames fn).1 with
    | nil => rw [hl] at h; simp at h
    | cons a t => simp
  simp [generate_base_images, g1, g2, hne, hrun, composeMotion, hdeq]

lemma generate_some_inv {F : Type} (toGray : F → Image) (resize : F → F) (p : Params)
    (frames : List F) (fn : ℤ) (r : F × List (ℕ × ℕ × ℕ))
    (hg : generate_base_images toGray resize (some frames) fn p = some r) :
    ∃ st, runEngine toGray p (collectedFrames resize p frames fn).1 = some st ∧
      composeMotion p st = some r := by
  simp only [generate_base_images] at hg
  by_cases g1 : frames.length ≤ 0
  · simp [g1] at hg
  by_cases g2 : ((frames.length : ℤ) - 1) < startFrame p fn
  · simp [g1, g2] at hg
  simp only [if_neg g1, if_neg g2] at hg
  by_cases g3 : ((collectedFrames resize p frames fn).1).isEmpty = true
  · simp [g3] at hg
  simp only [eq_false_of_ne_true g3, Bool.false_eq_true, if_false] at hg
  cases hrun : runEngine toGray p (collectedFrames resize p frames fn).1 with
  | none => rw [hrun] at hg; simp at hg
  | some st =>
    rw [hrun] at hg
    exact ⟨st, rfl, hg⟩

end BehaveAI

namespace BehaveAI

lemma collectGo_nil_fst {F : Type} (resize : F → F) (p : Params) (total idx rc : ℕ)
    (collected : List F) : (collectGo resize p total ([] : List F) idx rc collected).1 = collected := by
  by_cases hc : collected.length < p.base_frame_window ∧ idx < total <;> simp [collectGo, hc]

/-- C2: the window start index is `max(0, frame_num - (sampleCount-1)*strideStep)`, and from
that index a decoded frame is retained exactly when its offset from the read start is a
multiple of `strideStep`, until `sampleCount` frames are retained or the source is
exhausted. -/
theorem claim_c2 {F : Type} (resize : F → F) (p : Params) (frames : List F) (frame_num : ℤ)
    (hfw : p.frame_window = p.base_frame_window * (p.frame_skip + 1)) :
    startFrame p frame_num =
      max 0 (frame_num - ((p.base_frame_window : ℤ) - 1) * ((p.frame_skip : ℤ) + 1)) ∧
    (collectedFrames resize p frames frame_num).1 =
      ((stridedEvery (p.frame_skip + 1) 0
          (frames.drop (startFrame p frame_num).toNat)).take p.base_frame_window).map
        (fun f => if p.scale_factor ≠ 1 then resize f else f) := by
  refine ⟨rfl, ?_⟩
  by_cases hs : (startFrame p frame_num).toNat ≤ frames.length
  · have h1 : (startFrame p frame_num).toNat +
        (frames.drop (startFrame p frame_num).toNat).length ≤ frames.length := by
      rw [List.length_drop]; omega
    have h := collectGo_fst_eq resize p hfw frames.length
      (frames.drop (startFrame p frame_num).toNat) (startFrame p frame_num).toNat 0 [] h1
      (by simp)
    simpa [collectedFrames] using h
  · have hd : frames.drop (startFrame p frame_num).toNat = [] :=
      List.drop_eq_nil_of_le (by omega)
    simp [collectedFrames, hd, collectGo_nil_fst, stridedEvery]

/-- C9: the frame-reading loop performs at most `sampleCount*strideStep + 10` decode
attempts, and never retains more than `sampleCount` frames. -/
theorem claim_c9 {F : Type} (resize : F → F) (p : Params) (frames : List F) (frame_num : ℤ) :
    (collectedFrames resize p frames frame_num).2 ≤
      p.base_frame_window * (p.frame_skip + 1) + 10 ∧
    (collectedFrames resize p frames frame_num).1.length ≤ p.base_frame_window := by
  constructor
  · have h := collectGo_count_le resize p frames.length
      (frames.drop (startFrame p frame_num).toNat) (startFrame p frame_num).toNat 0 []
      (by simp) (by simp)
    simp only [collectedFrames]
    linarith
  · have h := collectGo_len_le resize p frames.length
      (frames.drop (startFrame p frame_num).toNat) (startFrame p frame_num).toNat 0 []
      (by simp)
    simp only [collectedFrames]
    exact h

/-- C1: when the video opens, `sampleCount ≥ 2`, `frame_num` is a valid frame index and the
video has at least `sampleCount*strideStep` frames, `generate_base_images` returns a
non-absent result. -/
theorem claim_c1 {F : Type} (toGray : F → Image) (resize : F → F) (p : Params)
    (frames : List F) (frame_num : ℤ)
    (hfw : p.frame_window = p.base_frame_window * (p.frame_skip + 1))
    (hbn : 2 ≤ p.base_frame_window)
    (_hfn0 : 0 ≤ frame_num)
    (hfn : frame_num ≤ (frames.length : ℤ) - 1)
    (hlen : p.base_frame_window * (p.frame_skip + 1) ≤ frames.length) :
    (generate_base_images toGray resize (some frames) frame_num p).isSome = true := by
  have h21 : 2 * 1 ≤ p.base_frame_window * (p.frame_skip + 1) :=
    Nat.mul_le_mul hbn (by omega)
  have htot : 1 ≤ frames.length := by linarith
  have g1 : ¬ frames.length ≤ 0 := by omega
  have hwb : ((p.frame_skip : ℤ) + 1) + 1 ≤ (frames.length : ℤ) - startFrame p frame_num := by
    have := window_bound p.base_frame_window ((p.frame_skip : ℤ) + 1) frames.length frame_num
      (by exact_mod_cast hbn) (by have := Int.natCast_nonneg p.frame_skip; linarith)
      hfn (by exact_mod_cast hlen)
    exact this
  have hS0 : 0 ≤ startFrame p frame_num := le_max_left 0 _
  have hScast : ((startFrame p frame_num).toNat : ℤ) = startFrame p frame_num :=
    Int.toNat_of_nonneg hS0
  have g2 : ¬ ((frames.length : ℤ) - 1 < startFrame p frame_num) := by
    push_neg
    have : (0 : ℤ) ≤ (p.frame_skip : ℤ) := Int.natCast_nonneg _
    linarith
  have hdl : p.frame_skip + 1 + 1 ≤ (frames.drop (startFrame p frame_num).toNat).length := by
    rw [List.length_drop]
    omega
  have h1 : (startFrame p frame_num).toNat +
      (frames.drop (startFrame p frame_num).toNat).length ≤ frames.length := by
    rw [List.length_drop]; omega
  have hchar := collectGo_fst_eq resize p hfw frames.length
    (frames.drop (startFrame p frame_num).toNat) (startFrame p frame_num).toNat 0 [] h1
    (by simp)
  obtain ⟨a, rest, hdrop⟩ : ∃ a rest, frames.drop (startFrame p frame_num).toNat = a :: rest := by
    cases hd : frames.drop (startFrame p frame_num).toNat with
    | nil => rw [hd] at hdl; simp at hdl
    | cons a t => exact ⟨a, t, rfl⟩
  have hrest : (p.frame_skip + 1) - 1 < rest.length := by
    rw [hdrop] at hdl; simp only [List.length_cons] at hdl; omega
  have hnn := stridedEvery_ne_nil (p.frame_skip + 1) rest 1 (by omega) (by omega) hrest
  obtain ⟨b, rest2, hstr2⟩ : ∃ b rest2,
      stridedEvery (p.frame_skip + 1) 1 rest = b :: rest2 := by
    cases hs2 : stridedEvery (p.frame_skip + 1) 1 rest with
    | nil => exact absurd hs2 hnn
    | cons b t => exact ⟨b, t, rfl⟩
  have hlen2 : 2 ≤ (collectedFrames resize p frames frame_num).1.length := by
    have hcc : (collectedFrames resize p frames frame_num).1 =
        ((stridedEvery (p.frame_skip + 1) 0
            (frames.drop (startFrame p frame_num).toNat)).take p.base_frame_window).map
          (fun f => if p.scale_factor ≠ 1 then resize f else f) := by
      simpa [collectedFrames] using hchar
    rw [hcc, hdrop]
    simp only [stridedEvery, Nat.zero_mod, if_pos rfl, hstr2]
    simp [List.length_take]
    omega
  exact generate_isSome_of toGray resize p frames frame_num g1 g2 hlen2

end BehaveAI

namespace BehaveAI

lemma engineStep_inv_seq {F : Type} (toGray : F → Image) {p : Params}
    (hp : p.strategy = "sequential") (s : Option (EngineState F)) (f : F) (st : EngineState F)
    (h : engineStep toGray p s f = some st) : st.prev0 = toGray f := by
  cases s with
  | none =>
    rw [engineStep_none] at h
    cases Option.some.inj h
    rfl
  | some s0 =>
    rw [engineStep_seq toGray hp] at h
    cases Option.some.inj h
    rfl

/-- C3: under the Sequential strategy, after the initialising frame and `k ≥ 3` further
processed frames, `ref[0]`/`ref[1]`/`ref[2]` are the grayscales of the current frame and of
the frames processed 1 and 2 steps prior, and the final diff triple is computed from the
pre-update reference values of the last step. -/
theorem claim_c3 {F : Type} (toGray : F → Image) (p : Params) (hp : p.strategy = "sequential")
    (f0 : F) (rest : List F) (fc fb fa : F) (st : EngineState F)
    (hrun : runEngine toGray p (f0 :: (rest ++ [fc, fb, fa])) = some st) :
    st.prev0 = toGray fa ∧ st.prev1 = toGray fb ∧ st.prev2 = toGray fc ∧
    ∀ stp : EngineState F, runEngine toGray p (f0 :: (rest ++ [fc, fb])) = some stp →
      st.diffs = some (absdiffImg stp.prev0 (toGray fa), absdiffImg stp.prev1 (toGray fa),
        absdiffImg stp.prev2 (toGray fa)) := by
  have e1 : f0 :: (rest ++ [fc, fb, fa]) = (f0 :: (rest ++ [fc, fb])) ++ [fa] := by simp
  have e2 : f0 :: (rest ++ [fc, fb]) = (f0 :: (rest ++ [fc])) ++ [fb] := by simp
  obtain ⟨st1, h1⟩ := runEngine_isSome toGray p (f0 :: (rest ++ [fc])) (by simp)
  have hp1 : st1.prev0 = toGray fc := by
    have e3 : f0 :: (rest ++ [fc]) = (f0 :: rest) ++ [fc] := by simp
    rw [e3, runEngine_concat] at h1
    exact engineStep_inv_seq toGray hp _ fc st1 h1
  have h2 : runEngine toGray p (f0 :: (rest ++ [fc, fb])) =
      some ⟨toGray fb, st1.prev0, st1.prev1, fb,
        some (absdiffImg st1.prev0 (toGray fb), absdiffImg st1.prev1 (toGray fb),
          absdiffImg st1.prev2 (toGray fb)), toGray fb⟩ := by
    rw [e2, runEngine_concat, h1, engineStep_seq toGray hp]
  rw [e1, runEngine_concat, h2, engineStep_seq toGray hp] at hrun
  cases Option.some.inj hrun
  refine ⟨rfl, rfl, hp1, fun stp hstp => ?_⟩
  rw [h2] at hstp
  cases Option.some.inj hstp
  rfl

/-- C5: under the Exponential strategy, `expA = 0` makes the updated `ref[1]` equal the new
grayscale frame exactly (full replacement), and `expA = 1` leaves `ref[1]` unchanged,
bit-exactly through the rounding/saturating blend. -/
theorem claim_c5 {F : Type} (toGray : F → Image) :
    (∀ (p : Params) (st st' : EngineState F) (f : F),
      p.strategy = "exponential" → p.expA = 0 →
      st.prev1.length = (toGray f).length → (∀ x ∈ toGray f, x ≤ 255) →
      engineStep toGray p (some st) f = some st' → st'.prev1 = toGray f) ∧
    (∀ (p : Params) (st st' : EngineState F) (f : F),
      p.strategy = "exponential" → p.expA = 1 →
      st.prev1.length = (toGray f).length → (∀ x ∈ st.prev1, x ≤ 255) →
      engineStep toGray p (some st) f = some st' → st'.prev1 = st.prev1) := by
  constructor
  · intro p st st' f hexp hA hlen hb hstep
    rw [engineStep_exp toGray hexp] at hstep
    cases Option.some.inj hstep
    show addWeightedImg st.prev1 p.expA (toGray f) (1 - p.expA) 0 = toGray f
    rw [hA, sub_zero]
    exact zipWith_right_of_le st.prev1 (toGray f) hlen hb
  · intro p st st' f hexp hA hlen hb hstep
    rw [engineStep_exp toGray hexp] at hstep
    cases Option.some.inj hstep
    show addWeightedImg st.prev1 p.expA (toGray f) (1 - p.expA) 0 = st.prev1
    rw [hA, sub_self]
    exact zipWith_left_of_le st.prev1 (toGray f) hlen hb

/-- C7: the first processed frame initialises all three reference buffers to its grayscale
and produces no diff; consequently a window with exactly one collected frame — in
particular any window with `sampleCount = 1` — yields the absent result `(None, None)`. -/
theorem claim_c7 {F : Type} (toGray : F → Image) (resize : F → F) :
    (∀ (p : Params) (f : F),
      engineStep toGray p none f = some ⟨toGray f, toGray f, toGray f, f, none, toGray f⟩) ∧
    (∀ (p : Params) (frames : List F) (frame_num : ℤ),
      (collectedFrames resize p frames frame_num).1.length = 1 →
      generate_base_images toGray resize (some frames) frame_num p = none) ∧
    (∀ (p : Params) (frames : List F) (frame_num : ℤ),
      p.base_frame_window = 1 →
      generate_base_images toGray resize (some frames) frame_num p = none) := by
  refine ⟨fun p f => rfl, fun p frames fn h =>
    generate_none_of_short toGray resize p frames fn (by omega), fun p frames fn hb => ?_⟩
  have hlen := collectGo_len_le resize p frames.length
    (frames.drop (startFrame p fn).toNat) (startFrame p fn).toNat 0 [] (by simp)
  rw [hb] at hlen
  refine generate_none_of_short toGray resize p frames fn ?_
  simp only [collectedFrames]
  omega

/-- C8: every expected data condition — video fails to open, empty video, clamped start
index beyond the last frame, no frames collected, fewer than two usable frames — makes
`generate_base_images` return the explicit absence value; totality of the embedded
function shows no exception crosses the core boundary. -/
theorem claim_c8 {F : Type} (toGray : F → Image) (resize : F → F) (p : Params)
    (frame_num : ℤ) :
    generate_base_images toGray resize none frame_num p = none ∧
    generate_base_images toGray resize (some ([] : List F)) frame_num p = none ∧
    (∀ frames : List F, ((frames.length : ℤ) - 1) < startFrame p frame_num →
      generate_base_images toGray resize (some frames) frame_num p = none) ∧
    (∀ frames : List F, (collectedFrames resize p frames frame_num).1 = [] →
      generate_base_images toGray resize (some frames) frame_num p = none) ∧
    (∀ frames : List F, (collectedFrames resize p frames frame_num).1.length < 2 →
      generate_base_images toGray resize (some frames) frame_num p = none) := by
  refine ⟨rfl, by simp [generate_base_images], fun frames hg => ?_,
    fun frames hc => generate_none_of_short toGray resize p frames frame_num (by simp [hc]),
    fun frames hc => generate_none_of_short toGray resize p frames frame_num hc⟩
  by_cases g1 : frames.length ≤ 0
  · simp [generate_base_images, g1]
  · simp [generate_base_images, g1, hg]

end BehaveAI

namespace BehaveAI

/-- C4: in Direct mode the motion image is the fixed cross-mapped blend — blue from diff
index 0 and multiplier index 2, green from index 1 and multiplier 1, red from index 2 and
multiplier 0, each channel `saturate8(luminance*lumWeight + diff*multiplier + motionBias)`
— and the bias is the negation of the configured `motion_threshold`. -/
theorem claim_c4 {F : Type} (toGray : F → Image) (resize : F → F) :
    (∀ (p : Params) (frames : List F) (frame_num : ℤ) (m0 m1 m2 : ℚ) (s : F)
      (mi : List (ℕ × ℕ × ℕ)) (st : EngineState F) (d0 d1 d2 : Image),
      p.rgb_multipliers = [m0, m1, m2] → p.chromatic_tail_only ≠ "true" →
      generate_base_images toGray resize (some frames) frame_num p = some (s, mi) →
      runEngine toGray p (collectedFrames resize p frames frame_num).1 = some st →
      st.diffs = some (d0, d1, d2) →
      s = st.static_img ∧
      mi = merge3 (addWeightedImg st.gray p.lum_weight d0 m2 (p.motion_threshold : ℚ))
        (addWeightedImg st.gray p.lum_weight d1 m1 (p.motion_threshold : ℚ))
        (addWeightedImg st.gray p.lum_weight d2 m0 (p.motion_threshold : ℚ))) ∧
    (∀ (a b : ℕ) (alpha beta gamma : ℚ),
      addWeightedPix alpha beta gamma a b =
        saturate8 (round ((a : ℚ) * alpha + (b : ℚ) * beta + gamma))) ∧
    (∀ (c : ConfigFile) (p : Params), load_config c = some p →
      p.motion_threshold = -(c.motion_threshold.getD 0)) := by
  refine ⟨?_, fun a b alpha beta gamma => rfl, ?_⟩
  · intro p frames fn m0 m1 m2 s mi st d0 d1 d2 hm hct hgen hrun hdiffs
    obtain ⟨st', hrun', hcomp⟩ := generate_some_inv toGray resize p frames fn (s, mi) hgen
    rw [hrun] at hrun'
    cases Option.some.inj hrun'
    rw [composeMotion, hdiffs] at hcomp
    have hpair := Prod.mk.injEq .. ▸ Option.some.inj hcomp
    obtain ⟨hs, hmi⟩ := Prod.mk.inj (Option.some.inj hcomp)
    refine ⟨hs.symm, ?_⟩
    rw [← hmi, motionImageOf, if_neg hct, hm]
    simp [List.getD]
  · intro c p hload
    cases hc : c.rgb_multipliers with
    | none => rw [load_config, hc] at hload; exact absurd hload (by simp)
    | some mults =>
      rw [load_config, hc] at hload
      cases Option.some.inj hload
      rfl

/-- C6: in Chromatic-tail mode the tails `d0-d1`, `d2-d1`, `d1-d0` are computed with
saturating subtraction (a negative difference becomes 0, so every tail pixel is the
clamped signed difference), and the tails replace the raw diffs in the same
channel-to-multiplier blend as Direct mode. -/
theorem claim_c6 {F : Type} (toGray : F → Image) (resize : F → F) :
    (∀ a b : ℕ, (subtractPix a b : ℤ) = max 0 ((a : ℤ) - (b : ℤ))) ∧
    (∀ (p : Params) (frames : List F) (frame_num : ℤ) (m0 m1 m2 : ℚ) (s : F)
      (mi : List (ℕ × ℕ × ℕ)) (st : EngineState F) (d0 d1 d2 : Image),
      p.rgb_multipliers = [m0, m1, m2] → p.chromatic_tail_only = "true" →
      generate_base_images toGray resize (some frames) frame_num p = some (s, mi) →
      runEngine toGray p (collectedFrames resize p frames frame_num).1 = some st →
      st.diffs = some (d0, d1, d2) →
      mi = merge3
        (addWeightedImg st.gray p.lum_weight (subtractImg d0 d1) m2 (p.motion_threshold : ℚ))
        (addWeightedImg st.gray p.lum_weight (subtractImg d1 d0) m1 (p.motion_threshold : ℚ))
        (addWeightedImg st.gray p.lum_weight (subtractImg d2 d1) m0 (p.motion_threshold : ℚ))) := by
  refine ⟨subtractPix_eq_max, ?_⟩
  intro p frames fn m0 m1 m2 s mi st d0 d1 d2 hm hct hgen hrun hdiffs
  obtain ⟨st', hrun', hcomp⟩ := generate_some_inv toGray resize p frames fn (s, mi) hgen
  rw [hrun] at hrun'
  cases Option.some.inj hrun'
  rw [composeMotion, hdiffs] at hcomp
  obtain ⟨hs, hmi⟩ := Prod.mk.inj (Option.some.inj hcomp)
  rw [← hmi, motionImageOf, if_pos hct, hm]
  simp [List.getD]

lemma baseWindowOf_collapse (m : ℚ) : baseWindowOf m m =
    if 9/10 < m then 45 else if 4/5 < m then 20 else if 7/10 < m then 15
    else if 1/2 < m then 10 else if 1/5 < m then 5 else 4 := by
  simp only [baseWindowOf, or_self]

lemma baseWindowOf_eq_max (a b : ℚ) : baseWindowOf a b = baseWindowOf (max a b) (max a b) := by
  simp only [baseWindowOf, lt_max_iff, or_self]

lemma baseWindowOf_mono {m1 m2 : ℚ} (h : m1 ≤ m2) :
    baseWindowOf m1 m1 ≤ baseWindowOf m2 m2 := by
  rw [baseWindowOf_collapse, baseWindowOf_collapse]
  split_ifs <;> first | omega | linarith

lemma baseWindowOf_mem (a b : ℚ) : baseWindowOf a b ∈ ([4, 5, 10, 15, 20, 45] : List ℕ) := by
  unfold baseWindowOf
  split_ifs <;> simp

lemma baseWindowOf_ge (a b : ℚ) : 4 ≤ baseWindowOf a b := by
  rw [baseWindowOf_eq_max, baseWindowOf_collapse]
  split_ifs <;> omega

/-- C10: every configuration accepted by `load_config` satisfies
`frame_window = base_frame_window * (frame_skip + 1)`; the base window is one of
4, 5, 10, 15, 20, 45 (hence at least 4); the `sequential` strategy always gets base 4;
and for `exponential` the base window is monotone in `max expA expB`. -/
theorem claim_c10 :
    (∀ (c : ConfigFile) (p : Params), load_config c = some p →
      p.frame_window = p.base_frame_window * (p.frame_skip + 1) ∧
      p.base_frame_window ∈ ([4, 5, 10, 15, 20, 45] : List ℕ) ∧
      4 ≤ p.base_frame_window ∧
      (p.strategy = "sequential" → p.base_frame_window = 4)) ∧
    (∀ (c1 c2 : ConfigFile) (p1 p2 : Params),
      load_config c1 = some p1 → load_config c2 = some p2 →
      p1.strategy = "exponential" → p2.strategy = "exponential" →
      max p1.expA p1.expB ≤ max p2.expA p2.expB →
      p1.base_frame_window ≤ p2.base_frame_window) := by
  constructor
  · intro c p hload
    cases hc : c.rgb_multipliers with
    | none => rw [load_config, hc] at hload; exact absurd hload (by simp)
    | some mults =>
      rw [load_config, hc] at hload
      cases Option.some.inj hload
      refine ⟨rfl, ?_, ?_, ?_⟩
      · by_cases hs : c.strategy.getD "exponential" = "exponential"
        · simp only [hs, if_pos rfl]
          exact baseWindowOf_mem _ _
        · simp [hs]
      · by_cases hs : c.strategy.getD "exponential" = "exponential"
        · simp only [hs, if_pos rfl]
          exact baseWindowOf_ge _ _
        · simp [hs]
      · intro hseq
        simp only at hseq
        rw [if_neg (by rw [hseq]; decide)]
  · intro c1 c2 p1 p2 h1 h2 hs1 hs2 hmax
    cases hc1 : c1.rgb_multipliers with
    | none => rw [load_config, hc1] at h1; exact absurd h1 (by simp)
    | some mults1 =>
      cases hc2 : c2.rgb_multipliers with
      | none => rw [load_config, hc2] at h2; exact absurd h2 (by simp)
      | some mults2 =>
        rw [load_config, hc1] at h1
        rw [load_config, hc2] at h2
        cases Option.some.inj h1
        cases Option.some.inj h2
        simp only at hs1 hs2 hmax ⊢
        rw [if_pos hs1, if_pos hs2, baseWindowOf_eq_max, baseWindowOf_eq_max _ (c2.expB.getD (4/5))]
        exact baseWindowOf_mono hmax

end BehaveAI

namespace BehaveAI

def wGrayW : ℕ → Image := fun n => [n]

def wpW : Params :=
  ⟨1, 0, 0, "sequential", "false", 1, [1, 1, 1], 0, 0, "false", "false", "false", 2, 2⟩

def wcfgW : ConfigFile :=
  ⟨some 1, some 0, some 0, some "sequential", some "false", some 1, some [1, 1, 1],
    some 0, some 7, some "false", some "false", some "false"⟩

def wcpW : Params :=
  ⟨1, 0, 0, "sequential", "false".toLower, 1, [1, 1, 1], 0, -7, "false".toLower,
    "false".toLower, "false".toLower, 4, 4⟩

def wceW1 : ConfigFile :=
  ⟨some 1, some 0, some 0, some "exponential", some "false", some 1, some [1, 1, 1],
    some 0, some 0, some "false", some "false", some "false"⟩

def wcpW1 : Params :=
  ⟨1, 0, 0, "exponential", "false".toLower, 1, [1, 1, 1], 0, 0, "false".toLower,
    "false".toLower, "false".toLower, 4, 4⟩

def wceW2 : ConfigFile :=
  ⟨some 1, some 1, some 0, some "exponential", some "false", some 1, some [1, 1, 1],
    some 0, some 0, some "false", some "false", some "false"⟩

def wcpW2 : Params :=
  ⟨1, 1, 0, "exponential", "false".toLower, 1, [1, 1, 1], 0, 0, "false".toLower,
    "false".toLower, "false".toLower, 45, 45⟩


end BehaveAI

namespace BehaveAI

lemma awp110W (a b : ℕ) : addWeightedPix 1 1 0 a b = min 255 (a + b) := by
  unfold addWeightedPix saturate8
  have h : ((a : ℚ) * 1 + (b : ℚ) * 1 + 0) = ((a + b : ℕ) : ℚ) := by push_cast; ring
  rw [h, round_natCast]
  omega

def wst3 : EngineState ℕ := ⟨[5], [4], [3], 5, some ([1], [2], [3]), [5]⟩

def wstp3 : EngineState ℕ := ⟨[4], [3], [2], 4, some ([1], [2], [3]), [4]⟩

def wst4 : EngineState ℕ := ⟨[9], [5], [5], 9, some ([4], [4], [4]), [9]⟩

def wpcW : Params :=
  ⟨1, 0, 0, "sequential", "true", 1, [1, 1, 1], 0, 0, "false", "false", "false", 2, 2⟩

def wp1W : Params :=
  ⟨1, 0, 0, "sequential", "false", 1, [1, 1, 1], 0, 0, "false", "false", "false", 1, 1⟩

def pexp0W : Params :=
  ⟨1, 0, 0, "exponential", "false", 1, [1, 1, 1], 0, 0, "false", "false", "false", 4, 4⟩

def pexp1W : Params :=
  ⟨1, 1, 0, "exponential", "false", 1, [1, 1, 1], 0, 0, "false", "false", "false", 4, 4⟩

def wst5 : EngineState ℕ := ⟨[3], [3], [3], 0, none, [3]⟩

def wst5a : EngineState ℕ :=
  ⟨wGrayW 7, addWeightedImg wst5.prev1 pexp0W.expA (wGrayW 7) (1 - pexp0W.expA) 0,
    addWeightedImg wst5.prev2 pexp0W.expB (wGrayW 7) (1 - pexp0W.expB) 0, 7,
    some (absdiffImg wst5.prev0 (wGrayW 7), absdiffImg wst5.prev1 (wGrayW 7),
      absdiffImg wst5.prev2 (wGrayW 7)), wGrayW 7⟩

def wst5b : EngineState ℕ :=
  ⟨wGrayW 7, addWeightedImg wst5.prev1 pexp1W.expA (wGrayW 7) (1 - pexp1W.expA) 0,
    addWeightedImg wst5.prev2 pexp1W.expB (wGrayW 7) (1 - pexp1W.expB) 0, 7,
    some (absdiffImg wst5.prev0 (wGrayW 7), absdiffImg wst5.prev1 (wGrayW 7),
      absdiffImg wst5.prev2 (wGrayW 7)), wGrayW 7⟩

theorem claim_c1_witness :
    (generate_base_images wGrayW id (some [5, 9]) 1 wpW).isSome = true :=
  claim_c1 wGrayW id wpW [5, 9] 1 (by decide) (by decide) (by decide) (by decide) (by decide)

theorem claim_c2_witness :
    startFrame wpW 1 =
      max 0 (1 - ((wpW.base_frame_window : ℤ) - 1) * ((wpW.frame_skip : ℤ) + 1)) ∧
    (collectedFrames id wpW [5, 9] 1).1 =
      ((stridedEvery (wpW.frame_skip + 1) 0
          (([5, 9] : List ℕ).drop (startFrame wpW 1).toNat)).take wpW.base_frame_window).map
        (fun f => if wpW.scale_factor ≠ 1 then id f else f) :=
  claim_c2 id wpW [5, 9] 1 (by decide)

theorem claim_c3_witness :
    wst3.prev0 = wGrayW 5 ∧ wst3.prev1 = wGrayW 4 ∧ wst3.prev2 = wGrayW 3 ∧
    wst3.diffs = some (absdiffImg wstp3.prev0 (wGrayW 5), absdiffImg wstp3.prev1 (wGrayW 5),
      absdiffImg wstp3.prev2 (wGrayW 5)) := by
  have h := claim_c3 wGrayW wpW rfl 1 [2] 3 4 5 wst3 rfl
  exact ⟨h.1, h.2.1, h.2.2.1, h.2.2.2 wstp3 rfl⟩

theorem claim_c4_witness :
    ((9 : ℕ) = wst4.static_img ∧
      [((13 : ℕ), (13 : ℕ), (13 : ℕ))] =
        merge3 (addWeightedImg wst4.gray wpW.lum_weight [4] 1 (wpW.motion_threshold : ℚ))
          (addWeightedImg wst4.gray wpW.lum_weight [4] 1 (wpW.motion_threshold : ℚ))
          (addWeightedImg wst4.gray wpW.lum_weight [4] 1 (wpW.motion_threshold : ℚ))) ∧
    wcpW.motion_threshold = -(wcfgW.motion_threshold.getD 0) := by
  have hgen : generate_base_images wGrayW id (some [5, 9]) 1 wpW = some (9, [(13, 13, 13)]) := by
    have hrun : runEngine wGrayW wpW (collectedFrames id wpW [5, 9] 1).1 = some wst4 := rfl
    simp only [generate_base_images]
    rw [if_neg (by decide), if_neg (by decide), if_neg (by decide), hrun]
    simp only [composeMotion, motionImageOf, wst4]
    rw [if_neg (by decide)]
    simp [wpW, addWeightedImg, awp110W, merge3]
  exact ⟨(claim_c4 wGrayW id).1 wpW [5, 9] 1 1 1 1 9 [(13, 13, 13)] wst4 [4] [4] [4] rfl
      (by decide) hgen rfl rfl,
    (claim_c4 wGrayW id).2.2 wcfgW wcpW rfl⟩

theorem claim_c5_witness : wst5a.prev1 = wGrayW 7 ∧ wst5b.prev1 = wst5.prev1 :=
  ⟨(claim_c5 wGrayW).1 pexp0W wst5 wst5a 7 rfl rfl rfl (by decide)
      (engineStep_exp wGrayW rfl wst5 7),
    (claim_c5 wGrayW).2 pexp1W wst5 wst5b 7 rfl rfl rfl (by decide)
      (engineStep_exp wGrayW rfl wst5 7)⟩

theorem claim_c6_witness :
    [((9 : ℕ), (9 : ℕ), (9 : ℕ))] = merge3
      (addWeightedImg wst4.gray wpcW.lum_weight (subtractImg [4] [4]) 1 (wpcW.motion_threshold : ℚ))
      (addWeightedImg wst4.gray wpcW.lum_weight (subtractImg [4] [4]) 1 (wpcW.motion_threshold : ℚ))
      (addWeightedImg wst4.gray wpcW.lum_weight (subtractImg [4] [4]) 1
        (wpcW.motion_threshold : ℚ)) := by
  have hgen : generate_base_images wGrayW id (some [5, 9]) 1 wpcW = some (9, [(9, 9, 9)]) := by
    have hrun : runEngine wGrayW wpcW (collectedFrames id wpcW [5, 9] 1).1 = some wst4 := rfl
    simp only [generate_base_images]
    rw [if_neg (by decide), if_neg (by decide), if_neg (by decide), hrun]
    simp only [composeMotion, motionImageOf, wst4]
    rw [if_pos (show wpcW.chromatic_tail_only = "true" from rfl)]
    simp [wpcW, addWeightedImg, awp110W, merge3, subtractImg, subtractPix]
  exact (claim_c6 wGrayW id).2 wpcW [5, 9] 1 1 1 1 9 [(9, 9, 9)] wst4 [4] [4] [4] rfl rfl hgen
    rfl rfl

theorem claim_c7_witness :
    generate_base_images wGrayW id (some [0]) 0 wpW = none ∧
    generate_base_images wGrayW id (some [5, 9]) 1 wp1W = none :=
  ⟨(claim_c7 wGrayW id).2.1 wpW [0] 0 (by decide),
    (claim_c7 wGrayW id).2.2 wp1W [5, 9] 1 rfl⟩

theorem claim_c8_witness :
    generate_base_images wGrayW id (some [0]) 5 wpW = none ∧
    generate_base_images wGrayW id (some [0]) 0 wpW = none :=
  ⟨(claim_c8 wGrayW id wpW 5).2.2.1 [0] (by decide),
    (claim_c8 wGrayW id wpW 0).2.2.2.2 [0] (by decide)⟩

theorem claim_c10_witness :
    (wcpW.frame_window = wcpW.base_frame_window * (wcpW.frame_skip + 1) ∧
      wcpW.base_frame_window ∈ ([4, 5, 10, 15, 20, 45] : List ℕ) ∧
      4 ≤ wcpW.base_frame_window ∧ wcpW.base_frame_window = 4) ∧
    wcpW1.base_frame_window ≤ wcpW2.base_frame_window := by
  have h1 : load_config wceW1 = some wcpW1 := by
    norm_num [load_config, baseWindowOf, wceW1, wcpW1]
  have h2 : load_config wceW2 = some wcpW2 := by
    norm_num [load_config, baseWindowOf, wceW2, wcpW2]
  have h := claim_c10.1 wcfgW wcpW rfl
  exact ⟨⟨h.1, h.2.1, h.2.2.1, h.2.2.2 rfl⟩,
    claim_c10.2 wceW1 wceW2 wcpW1 wcpW2 h1 h2 rfl rfl (by norm_num [wcpW1, wcpW2])⟩

end BehaveAI
